import Mathlib

/-
Verification development for the planar boolean operation of hob3l,
file src/csg2-bool.c (Martinez-Rueda style plane sweep with xor bit masks).

Shallow embedding notes.

Numbers: the C code computes with IEEE doubles.  The embedding models the
double values as exact rationals.  All concrete inputs used in theorems
have small integer coordinates, where the double computations of the C
code are exact, so the rational model agrees with the C behaviour there.

Support library: the cpmat functions (cp_dict, cp_list, cp_ring,
cp_vec2_lex_pt_cmp, cp_vec2_right_normal3_z, the cp_equ comparison family
and cp_csg2_poly_minmax / cp_csg2_poly_merge) are not part of src/.
Definitions for them are modelled from the spec and are marked as such in
their doc comments.  In particular the generic (non-point) epsilon
comparisons cp_equ, cp_lt, cp_leq, cp_gt are modelled as exact rational
comparisons, and the point comparisons cp_pt_equ, cp_pt_gt use the
documented quantum pt_epsilon = 0.001.  On coordinates that are multiples
of the quantum both models agree with the C library behaviour.

Pointers: point objects are identified by their index in the registry
list, events by their index in the event list.  Pool allocation returns
addresses in allocation order, so the pointer comparison inside
the collinear branch of the segment comparator is modelled as index
comparison.

Dictionaries: cp_dict is an ordered binary search tree.  It is modelled
from the spec as an ordered list: insertion places the new element before
the first member that compares greater than it (ties keep moving right,
matching insertion of duplicates to the right).  Extraction of the
minimum takes the head.  Key mutation of stored nodes does not reorder a
search tree, and it does not reorder the model list either.

Assertions of the C code are modelled as no-ops; theorems about the
asserted properties are stated separately.
-/

namespace Csg2Bool

set_option maxRecDepth 100000
set_option maxHeartbeats 4000000
set_option synthInstance.maxHeartbeats 2000000

/-- Coordinate pair; cp_vec2_t with double components modelled as rationals. -/
abbrev Vec2 := ℚ × ℚ

/-
Rational arithmetic layer.  The standard Rat.add, Rat.sub, Rat.mul and
Rat.div are irreducible, which blocks kernel evaluation of concrete runs,
so the model computes with the reducible primitives mkRat and Rat.divInt.
The bridge lemmas right below show the layer agrees with the standard
field operations of the rationals, so symbolic proofs can rewrite to them.
-/

/-- Reducible rational addition. -/
def qadd (a b : ℚ) : ℚ := mkRat (a.num * b.den + b.num * a.den) (a.den * b.den)

/-- Reducible rational subtraction. -/
def qsub (a b : ℚ) : ℚ := mkRat (a.num * b.den - b.num * a.den) (a.den * b.den)

/-- Reducible rational multiplication. -/
def qmul (a b : ℚ) : ℚ := mkRat (a.num * b.num) (a.den * b.den)

/-- Reducible rational division; division by zero gives zero. -/
def qdiv (a b : ℚ) : ℚ := Rat.divInt (a.num * b.den) (a.den * b.num)

/-- Modelled from the spec: the rasterisation quantum cp_pt_epsilon is 0.001. -/
def cp_pt_epsilon : ℚ := mkRat 1 1000

/-- C library round: round half away from zero. -/
def c_round (v : ℚ) : ℤ :=
  if 0 ≤ v then Rat.floor (qadd v (mkRat 1 2)) else - Rat.floor (qadd (-v) (mkRat 1 2))

/-- rasterize from csg2-bool.c: snap a coordinate to the epsilon grid. -/
def rasterize (v : ℚ) : ℚ :=
  qmul cp_pt_epsilon (Rat.ofInt (c_round (qdiv v cp_pt_epsilon)))

/-- Modelled from the spec: equality up to the quantum epsilon. -/
def cp_pt_equ (a b : ℚ) : Bool := decide (|qsub a b| < cp_pt_epsilon)

/-- Modelled from the spec: greater by more than the quantum epsilon. -/
def cp_pt_gt (a b : ℚ) : Bool := decide (qsub a b > cp_pt_epsilon)

/-- Modelled from the spec: generic epsilon comparison cp_gt, exact here. -/
def cp_gt (a b : ℚ) : Bool := decide (a > b)

/-- Modelled from the spec: lexicographic coordinate comparison, x before y. -/
def cp_vec2_lex_pt_cmp (a b : Vec2) : Int :=
  if a.1 < b.1 then -1
  else if b.1 < a.1 then 1
  else if a.2 < b.2 then -1
  else if b.2 < a.2 then 1
  else 0

/-- Modelled from the spec: z of the right normal of the plane through a, b, p.
The value is negative when p lies above the oriented line a to b (with a
lexicographically smaller), positive when p lies below it.  The sign
convention is fixed by the comment on pt2_pt_cmp in csg2-bool.c (the edge
is the smaller side when it is below the point) and by the use inside
seg_cmp, where a positive value for a point of the second edge makes the
first edge the lower one in S. -/
def cp_vec2_right_normal3_z (a b p : Vec2) : ℚ :=
  qsub (qmul (qsub p.1 a.1) (qsub b.2 a.2)) (qmul (qsub p.2 a.2) (qsub b.1 a.1))

/-- Integer sign of a rational. -/
def sgn (q : ℚ) : Int := if q < 0 then -1 else if 0 < q then 1 else 0

/-- pt2_pt_cmp: bottom/top compare of edge a--b vs point p. -/
def pt2_pt_cmp (a b p : Vec2) : Int := sgn (cp_vec2_right_normal3_z a b p)

/-- odd_parity from csg2-bool.c, on a 64 bit size_t.  Each C step is a
left shift, an xor and a truncation to 64 bits; the result is the lowest
bit of the folded word. -/
def odd_parity (s0 : Nat) : Bool :=
  let m := 2 ^ 64
  let s := s0 % m
  let s := (s ^^^ (s <<< 1)) % m
  let s := (s ^^^ (s <<< 2)) % m
  let s := (s ^^^ (s <<< 4)) % m
  let s := (s ^^^ (s <<< 8)) % m
  let s := (s ^^^ (s <<< 16)) % m
  let s := (s ^^^ (s <<< 32)) % m
  (s &&& 1) == 1

/-- Odd population count of a 64 bit word, the reference meaning of the
comment above the classifier in ev_right (popcount of the mask is odd). -/
def odd_popcount (n : Nat) : Bool :=
  (List.range 64).foldl (fun b i => xor b (n.testBit i)) false

/-- The four boolean operations, cp_bool_op_t. -/
inductive BoolOp where
  | add
  | cut
  | sub
  | xor
deriving DecidableEq, Repr, Inhabited

/-- Event record; struct event of csg2-bool.c.  The point and the partner
are indices; nbrs models the cp_ring chain neighbour links. -/
structure Event where
  p : Nat
  other : Nat
  left : Bool
  owner : Nat
  below : Nat
  used : Bool
  line_a : ℚ
  line_b : ℚ
  line_swap : Bool
  nbrs : List Nat
deriving DecidableEq, Repr, Inhabited

/-- Algorithm state; ctxt_t of csg2-bool.c plus the output being built. -/
structure Ctxt where
  pts : List Vec2
  evs : List Event
  q : List Nat
  s : List Nat
  ends : List Nat
  poly : List Nat
  out_idx : List (Nat × Nat)
  out_point : List Vec2
  out_path : List (List Nat)
  op : BoolOp
  mask_neg : Nat
  mask_all : Nat
  minmaxx : ℚ
  bb0maxx : ℚ
deriving DecidableEq, Repr, Inhabited

def ptGet (c : Ctxt) (i : Nat) : Vec2 := c.pts.getD i (0, 0)

def evGet (c : Ctxt) (i : Nat) : Event := c.evs.getD i default

def evSet (c : Ctxt) (i : Nat) (e : Event) : Ctxt :=
  { c with evs := c.evs.set i e }

def evMod (c : Ctxt) (i : Nat) (f : Event → Event) : Ctxt :=
  evSet c i (f (evGet c i))

/-- Registry lookup: first index whose coordinate equals v. -/
def pt_find : List Vec2 → Vec2 → Option Nat
  | [], _ => none
  | w :: t, v => if w = v then some 0 else (pt_find t v).map (· + 1)

/-- pt_new: rasterise, snap to zero, then find or allocate the point. -/
def pt_new (c : Ctxt) (v : Vec2) : Ctxt × Nat :=
  let x0 := rasterize v.1
  let y0 := rasterize v.2
  let x := if x0 = 0 then 0 else x0
  let y := if y0 = 0 then 0 else y0
  match pt_find c.pts (x, y) with
  | some i => (c, i)
  | none => ({ c with pts := c.pts ++ [(x, y)] }, c.pts.length)

/-- pt_cmp: identical point objects are equal, otherwise lexicographic. -/
def pt_cmp (c : Ctxt) (a b : Nat) : Int :=
  if a = b then 0 else cp_vec2_lex_pt_cmp (ptGet c a) (ptGet c b)

/-- left(ev) from csg2-bool.c, as a point index. -/
def ev_leftp (c : Ctxt) (i : Nat) : Nat :=
  let e := evGet c i
  if e.left then e.p else (evGet c e.other).p

/-- right(ev) from csg2-bool.c, as a point index. -/
def ev_rightp (c : Ctxt) (i : Nat) : Nat :=
  let e := evGet c i
  if e.left then (evGet c e.other).p else e.p

/-- ev_cmp: event order in the queue q. -/
def ev_cmp (c : Ctxt) (i j : Nat) : Int :=
  let e1 := evGet c i
  let e2 := evGet c j
  if e1.p ≠ e2.p then pt_cmp c e1.p e2.p
  else
    let d : Int := (if e1.left then 1 else 0) - (if e2.left then 1 else 0)
    if d ≠ 0 then d
    else
      pt2_pt_cmp (ptGet c (ev_leftp c i)) (ptGet c (ev_rightp c i))
        (ptGet c (evGet c e2.other).p)

/-- seg_cmp helper with the existing element first; pointer comparison in
the collinear branch is index comparison (pool allocation order). -/
def seg_cmp_raw (c : Ctxt) (i j : Nat) : Int :=
  if i = j then 0
  else
    let e1 := evGet c i
    let e2 := evGet c j
    let e1p := pt2_pt_cmp (ptGet c e1.p) (ptGet c (evGet c e1.other).p) (ptGet c e2.p)
    let e1o := pt2_pt_cmp (ptGet c e1.p) (ptGet c (evGet c e1.other).p)
      (ptGet c (evGet c e2.other).p)
    if e1p ≠ 0 ∨ e1o ≠ 0 then
      if e1p = 0 then e1o
      else if ev_cmp c i j > 0 then
        (if pt2_pt_cmp (ptGet c e2.p) (ptGet c (evGet c e2.other).p) (ptGet c e1.p) ≥ 0
         then -1 else 1)
      else (if e1p ≤ 0 then -1 else 1)
    else if e1.p = e2.p then (if i < j then -1 else 1)
    else ev_cmp c i j

/-- seg_cmp: status order with the new element passed first. -/
def seg_cmp (c : Ctxt) (i j : Nat) : Int := - seg_cmp_raw c j i

/-- Modelled from the spec: ordered dictionary insertion; the new element
goes before the first member it compares smaller than, duplicates to the
right. -/
def list_ins (f : Nat → Bool) (x : Nat) : List Nat → List Nat
  | [] => [x]
  | a :: t => if f a then x :: a :: t else a :: list_ins f x t

def q_insert (c : Ctxt) (i : Nat) : Ctxt :=
  { c with q := list_ins (fun m => ev_cmp c i m < 0) i c.q }

def s_insert (c : Ctxt) (i : Nat) : Ctxt :=
  { c with s := list_ins (fun m => seg_cmp c i m < 0) i c.s }

def s_remove (c : Ctxt) (i : Nat) : Ctxt :=
  { c with s := c.s.erase i }

def list_idx : List Nat → Nat → Option Nat
  | [], _ => none
  | a :: t, x => if a = x then some 0 else (list_idx t x).map (· + 1)

def s_prev (c : Ctxt) (i : Nat) : Option Nat :=
  match list_idx c.s i with
  | some 0 => none
  | some (k + 1) => c.s.get? k
  | none => none

def s_next (c : Ctxt) (i : Nat) : Option Nat :=
  match list_idx c.s i with
  | some k => c.s.get? (k + 1)
  | none => none

/-- q_add_orig: resolve both endpoints, drop collapsed edges, allocate the
event pair, fix the left flags, compute the line formula, queue both. -/
def q_add_orig (c : Ctxt) (v1 v2 : Vec2) (poly_id : Nat) : Ctxt :=
  let r1 := pt_new c v1
  let r2 := pt_new r1.1 v2
  let c := r2.1
  let p1 := r1.2
  let p2 := r2.2
  if p1 = p2 then c
  else
    let i1 := c.evs.length
    let i2 := i1 + 1
    let e1 : Event :=
      { p := p1, other := i2, left := true, owner := 1 <<< poly_id, below := 0,
        used := false, line_a := 0, line_b := 0, line_swap := false, nbrs := [] }
    let e2 : Event := { e1 with p := p2, other := i1, left := false }
    let sw12 := pt_cmp c p1 p2 > 0
    let e1 := if sw12 then { e1 with left := false } else e1
    let e2 := if sw12 then { e2 with left := true } else e2
    let dx := qsub (ptGet c p2).1 (ptGet c p1).1
    let dy := qsub (ptGet c p2).2 (ptGet c p1).2
    let sw := |dx| < |dy|
    let la := if sw then qdiv dx dy else qdiv dy dx
    let lb := qsub (if sw then (ptGet c p1).1 else (ptGet c p1).2)
      (qmul la (if sw then (ptGet c p1).2 else (ptGet c p1).1))
    let e1 := { e1 with line_a := la, line_b := lb, line_swap := sw }
    let e2 := { e2 with line_a := la, line_b := lb, line_swap := sw }
    let c := { c with evs := c.evs ++ [e1, e2] }
    let c := q_insert c i1
    q_insert c i2

/-- divide_segment: split the edge of left event ei at point p; the two
new events are allocated in the order r then l, flags of l and the old
right event are swapped when rounding moved p past the right end. -/
def divide_segment (c : Ctxt) (ei : Nat) (p : Nat) : Ctxt :=
  let e := evGet c ei
  let oi := e.other
  let o := evGet c oi
  let ri := c.evs.length
  let li := ri + 1
  let r : Event :=
    { p := p, other := ei, left := false, owner := e.owner, below := e.below,
      used := false, line_a := e.line_a, line_b := e.line_b,
      line_swap := e.line_swap, nbrs := [] }
  let l : Event :=
    { p := p, other := oi, left := true, owner := o.owner, below := o.below,
      used := false, line_a := e.line_a, line_b := e.line_b,
      line_swap := e.line_swap, nbrs := [] }
  let c := { c with evs := c.evs ++ [r, l] }
  let c := evMod c oi (fun v => { v with other := li })
  let c := evMod c ei (fun v => { v with other := ri })
  let c :=
    if ev_cmp c li oi > 0 then
      let c := evMod c oi (fun v => { v with left := true })
      evMod c li (fun v => { v with left := false })
    else c
  let c := q_insert c li
  q_insert c ri

/-- chain_insert_or_extract: the open end store keyed by point. -/
def chain_insert_or_extract (c : Ctxt) (ei : Nat) : Ctxt × Option Nat :=
  let pe := (evGet c ei).p
  match c.ends.find? (fun m => (evGet c m).p == pe) with
  | some m => ({ c with ends := c.ends.erase m }, some m)
  | none => ({ c with ends := c.ends ++ [ei] }, none)

/-- chain_join: join two free ring ends (cp_ring_join). -/
def chain_join (c : Ctxt) (a b : Nat) : Ctxt :=
  let c := evMod c a (fun v => { v with nbrs := v.nbrs ++ [b] })
  evMod c b (fun v => { v with nbrs := v.nbrs ++ [a] })

/-- poly_add: record a seed event of a closed chain. -/
def poly_add (c : Ctxt) (ei : Nat) : Ctxt :=
  { c with poly := c.poly ++ [ei] }

/-- chain_add: weave an emitted right event into the chain store. -/
def chain_add (c : Ctxt) (ei : Nat) : Ctxt :=
  let oi := (evGet c ei).other
  let c := evMod c ei (fun v => { v with nbrs := [] })
  let c := evMod c oi (fun v => { v with nbrs := [] })
  let r1 := chain_insert_or_extract c oi
  let r2 := chain_insert_or_extract r1.1 ei
  let c := r2.1
  match r1.2, r2.2 with
  | none, none => chain_join c ei oi
  | some a, some b => poly_add (chain_join c a b) b
  | some a, none => chain_join c a ei
  | none, some b => chain_join c b oi

/-- intersection_add_ev: push the pair ordered by ev_cmp, or a single
empty slot when the two events share their point. -/
def intersection_add_ev (c : Ctxt) (acc : List (Option Nat)) (i j : Nat) :
    List (Option Nat) :=
  if (evGet c i).p = (evGet c j).p then acc ++ [none]
  else if ev_cmp c i j > 0 then acc ++ [some j, some i]
  else acc ++ [some i, some j]

/-- Write a pair through the LINE_X / LINE_Y swap. -/
def line_mk (sw : Bool) (xv yv : ℚ) : Vec2 := if sw then (yv, xv) else (xv, yv)

/-- intersection_point from csg2-bool.c. -/
def intersection_point (ka0 kb0 : ℚ) (ks0 : Bool) (ma0 mb0 : ℚ) (ms0 : Bool) : Vec2 :=
  let ka := if |ka0| < |ma0| then ma0 else ka0
  let kb := if |ka0| < |ma0| then mb0 else kb0
  let ks := if |ka0| < |ma0| then ms0 else ks0
  let ma := if |ka0| < |ma0| then ka0 else ma0
  let mb := if |ka0| < |ma0| then kb0 else mb0
  let ms := if |ka0| < |ma0| then ks0 else ms0
  if ks ≠ ms then
    if ma = 0 then line_mk ks mb (qadd (qmul ka mb) kb)
    else
      let ka2 := qdiv 1 ka
      let kb2 := qmul kb (-ka2)
      let q := qdiv (qsub mb kb2) (qsub ka2 ma)
      line_mk ms q (qadd (qmul ka2 q) kb2)
  else
    let q := qdiv (qsub mb kb) (qsub ka ma)
    line_mk ks q (qadd (qmul ka q) kb)

/-- dim_between; the generic epsilon comparisons are modelled exact. -/
def dim_between (a b c : ℚ) : Bool :=
  if a < c then decide (a ≤ b) && decide (b ≤ c)
  else decide (a ≥ b) && decide (b ≥ c)

/-- find_intersection: intersection of two segment lines, rasterised,
validated against both bounding intervals, nudged by 1.5 epsilon when
rounding would put it before a left endpoint. -/
def find_intersection (c : Ctxt) (i0 i1 : Nat) : Ctxt × Option Nat :=
  let e0 := evGet c i0
  let e1 := evGet c i1
  let p0 := ptGet c e0.p
  let p0b := ptGet c (evGet c e0.other).p
  let p1 := ptGet c e1.p
  let p1b := ptGet c (evGet c e1.other).p
  if e0.line_swap = e1.line_swap ∧ e0.line_a = e1.line_a then (c, none)
  else
    let iorig := intersection_point e0.line_a e0.line_b e0.line_swap
      e1.line_a e1.line_b e1.line_swap
    let iv : Vec2 := (rasterize iorig.1, rasterize iorig.2)
    if ¬ (dim_between p0.1 iv.1 p0b.1 && dim_between p0.2 iv.2 p0b.2 &&
          dim_between p1.1 iv.1 p1b.1 && dim_between p1.2 iv.2 p1b.2) then (c, none)
    else
      let cmp0 := cp_vec2_lex_pt_cmp p0 iv
      if cmp0 = 0 then (c, some e0.p)
      else
        let nudge := rasterize (qadd iorig.1 (qmul (mkRat 3 2) cp_pt_epsilon))
        let iv := if cmp0 > 0 then (nudge, iv.2) else iv
        let cmp1 := cp_vec2_lex_pt_cmp p1 iv
        if cmp1 = 0 then (c, some e1.p)
        else
          let iv := if cmp1 > 0 then (nudge, iv.2) else iv
          let r := pt_new c iv
          (r.1, some r.2)

/-- coord_between: is b on the segment a--c, by coordinate comparison. -/
def coord_between (a b c : Vec2) : Bool :=
  if ¬ dim_between a.1 b.1 c.1 then false
  else if ¬ dim_between a.2 b.2 c.2 then false
  else
    let dx := qsub c.1 a.1
    let dy := qsub c.2 a.2
    if |dx| > |dy| then cp_pt_equ (qadd a.2 (qmul (qdiv (qsub b.1 a.1) dx) dy)) b.2
    else cp_pt_equ (qadd a.1 (qmul (qdiv (qsub b.2 a.2) dy) dx)) b.1

/-- pt_between on point identities. -/
def pt_between (c : Ctxt) (a b d : Nat) : Bool :=
  if a = b then true
  else if b = d then true
  else coord_between (ptGet c a) (ptGet c b) (ptGet c d)

/-- ev4_overlap: the eight case coordinate based overlap screen.  The two
comparisons ol against eh and oh against el are pointer comparisons in the
C code and are modelled as event index comparisons. -/
def ev4_overlap (c : Ctxt) (el ol eh oh : Nat) : Bool :=
  let elp := (evGet c el).p
  let olp := (evGet c ol).p
  let ehp := (evGet c eh).p
  let ohp := (evGet c oh).p
  let r1 : Option Bool :=
    if pt_between c elp ehp olp then
      if pt_between c elp ohp olp then some true
      else if pt_between c ehp olp ohp then some (decide (ol ≠ eh))
      else none
    else none
  match r1 with
  | some r => r
  | none =>
    if pt_between c ehp elp ohp then
      if pt_between c ehp olp ohp then true
      else if pt_between c elp ohp olp then decide (oh ≠ el)
      else false
    else false

/-- check_intersection: resolve a lower/upper pair adjacent in S. -/
def check_intersection (c : Ctxt) (el eh : Nat) : Ctxt :=
  let ol := (evGet c el).other
  let oh := (evGet c eh).other
  if ¬ ev4_overlap c el ol eh oh then
    match find_intersection c el eh with
    | (c, some ip) =>
      if (evGet c el).p = (evGet c eh).p ∨ (evGet c ol).p = (evGet c oh).p then c
      else
        let c :=
          if ip = (evGet c el).p then q_insert (s_remove c el) el
          else if ip ≠ (evGet c ol).p then divide_segment c el ip
          else c
        if ip = (evGet c eh).p then q_insert (s_remove c eh) eh
        else if ip ≠ (evGet c oh).p then divide_segment c eh ip
        else c
    | (c, none) => c
  else
    let owner := (evGet c eh).owner ^^^ (evGet c el).owner
    let below := (evGet c el).below
    let above := below ^^^ owner
    let sev := intersection_add_ev c (intersection_add_ev c [] el eh) ol oh
    match sev with
    | [none, none] =>
      let c := evMod c eh (fun v => { v with owner := owner, below := below })
      let c := evMod c oh (fun v => { v with owner := owner })
      let c := evMod c el (fun v => { v with owner := 0 })
      evMod c ol (fun v => { v with owner := 0 })
    | [none, some s1, some s2] =>
      let c := evMod c s1 (fun v => { v with owner := 0 })
      let c := evMod c (evGet c s1).other (fun v => { v with owner := 0 })
      let shl := (evGet c s2).other
      let c := evMod c (evGet c s2).other (fun v => { v with owner := owner, below := below })
      let c := if shl = el then evMod c eh (fun v => { v with below := above }) else c
      divide_segment c shl (evGet c s1).p
    | [some s0, some s1, none] =>
      let c := evMod c s1 (fun v => { v with owner := 0 })
      let c := evMod c (evGet c s1).other (fun v => { v with owner := 0 })
      let shl := s0
      let c := evMod c (evGet c s0).other (fun v => { v with owner := owner, below := below })
      let c := if shl = el then evMod c eh (fun v => { v with below := above }) else c
      divide_segment c shl (evGet c s1).p
    | [some s0, some s1, some s2, some s3] =>
      if s0 ≠ (evGet c s3).other then
        let c := evMod c s1 (fun v => { v with owner := 0 })
        let c := if s1 = eh then evMod c s1 (fun v => { v with below := above }) else c
        let c := evMod c s2 (fun v => { v with owner := owner, below := below })
        let c := divide_segment c s0 (evGet c s1).p
        divide_segment c s1 (evGet c s2).p
      else
        let c := evMod c s1 (fun v => { v with owner := 0 })
        let c := evMod c s2 (fun v => { v with owner := 0 })
        let c :=
          if s1 = eh then
            let c := evMod c s1 (fun v => { v with below := above })
            evMod c s2 (fun v => { v with below := above })
          else c
        let c := divide_segment c s0 (evGet c s1).p
        let t := (evGet c s3).other
        let c := evMod c t (fun v => { v with owner := owner, below := below })
        divide_segment c t (evGet c s2).p
    | _ => c

/-- ev_left: insert into S, take the below mask from the predecessor,
check intersections with both neighbours (the second only when the event
survived the first check). -/
def ev_left (c : Ctxt) (e : Nat) : Ctxt :=
  let c := s_insert c e
  let prev := s_prev c e
  let c :=
    match prev with
    | none => evMod c e (fun v => { v with below := 0 })
    | some pi =>
      evMod c e (fun v => { v with below := (evGet c pi).below ^^^ (evGet c pi).owner })
  let c :=
    match s_next c e with
    | some ni => check_intersection c e ni
    | none => c
  match prev with
  | some pi => if c.s.contains e then check_intersection c pi e else c
  | none => c

/-- Classifier rule of ev_right: is mask m inside for operation op. -/
def ev_in (op : BoolOp) (mask_neg mask_all m : Nat) : Bool :=
  match op with
  | .add => m != 0
  | .cut => (m ^^^ mask_neg ^^^ mask_all) == 0
  | .sub => (m ^^^ mask_neg ^^^ mask_all) == 0
  | .xor => odd_parity m

/-- ev_right: remove the partner from S, classify, possibly emit, then
check the intersection of the newly adjacent neighbours. -/
def ev_right (c : Ctxt) (e : Nat) : Ctxt :=
  let sli := (evGet c e).other
  let next := s_next c sli
  let prev := s_prev c sli
  let c := s_remove c sli
  let below := (evGet c sli).below
  let above := below ^^^ (evGet c sli).owner
  let below_in := ev_in c.op c.mask_neg c.mask_all below
  let above_in := ev_in c.op c.mask_neg c.mask_all above
  let c :=
    if below_in ≠ above_in then
      let b := if below_in then 1 else 0
      let c := evMod c e (fun v => { v with below := b })
      let c := evMod c sli (fun v => { v with below := b })
      chain_add c e
    else c
  match next, prev with
  | some n, some p => check_intersection c p n
  | _, _ => c

/-- Early stop test of the sweep loop (OPT level 3 of the source). -/
def op_stop (op : BoolOp) (x minmaxx bb0maxx : ℚ) : Bool :=
  (op == BoolOp.cut && cp_pt_gt x minmaxx) || (op == BoolOp.sub && cp_pt_gt x bb0maxx)

/-- The sweep loop, fuelled. -/
def sweep : Nat → Ctxt → Ctxt
  | 0, c => c
  | fuel + 1, c =>
    match c.q with
    | [] => c
    | e :: qrest =>
      let c := { c with q := qrest }
      if op_stop c.op (ptGet c (evGet c e).p).1 c.minmaxx c.bb0maxx then c
      else if (evGet c e).left then sweep fuel (ev_left c e)
      else sweep fuel (ev_right c e)

def out_find (c : Ctxt) (pid : Nat) : Option Nat :=
  match c.out_idx.find? (fun pr => pr.1 == pid) with
  | some pr => some pr.2
  | none => none

/-- path_add_point: mark used, allocate the output index lazily, append. -/
def path_add_point (c : Ctxt) (acc : List Nat) (e : Nat) : Ctxt × List Nat :=
  let c := evMod c e (fun v => { v with used := true })
  let pid := (evGet c e).p
  match out_find c pid with
  | some idx => (c, acc ++ [idx])
  | none =>
    let idx := c.out_point.length
    ({ c with out_point := c.out_point ++ [ptGet c pid],
              out_idx := c.out_idx ++ [(pid, idx)] },
     acc ++ [idx])

/-- Step to the ring neighbour of cur that is not prev. -/
def ring_next (c : Ctxt) (prev cur : Nat) : Nat :=
  let nb := (evGet c cur).nbrs
  if nb.getD 0 cur = prev then nb.getD 1 cur else nb.getD 0 cur

/-- Walk the ring from cur away from prev until stop reappears. -/
def ring_walk (c : Ctxt) : Nat → Nat → Nat → Nat → List Nat
  | 0, _, _, _ => []
  | fuel + 1, prev, cur, stop =>
    let nxt := ring_next c prev cur
    if nxt = stop then [] else nxt :: ring_walk c fuel cur nxt stop

/-- path_make: orient by the below flag of the seed and walk the ring. -/
def path_make (c : Ctxt) (e0 : Nat) : Ctxt :=
  let ex0 := (evGet c e0).nbrs.getD 0 e0
  let e10 := (evGet c e0).nbrs.getD 1 e0
  let e1 := if (evGet c ex0).p = (evGet c (evGet c e0).other).p then ex0 else e10
  let a0 := if (evGet c e0).below ≠ 0 then e1 else e0
  let a1 := if (evGet c e0).below ≠ 0 then e0 else e1
  let r1 := path_add_point c [] a0
  let r2 := path_add_point r1.1 r1.2 a1
  let rest := ring_walk r2.1 (r2.1.evs.length + 1) a0 a1 a0
  let r3 := rest.foldl (fun pr ei => path_add_point pr.1 pr.2 ei) r2
  { r3.1 with out_path := r3.1.out_path ++ [r3.2] }

/-- poly_make: extract one path per unused seed. -/
def poly_make (c : Ctxt) : Ctxt :=
  c.poly.foldl (fun c e => if (evGet c e).used then c else path_make c e) c

/-- Input and output polygon: a point array plus paths of point indices;
cp_csg2_poly_t restricted to the fields the boolean operation uses. -/
structure Poly where
  point : List Vec2
  path : List (List Nat)
deriving DecidableEq, Repr, Inhabited

def poly_empty : Poly := { point := [], path := [] }

/-- Modelled from the spec: cp_csg2_poly_minmax, bounding box over the
point array, as a pair (min corner, max corner). -/
def poly_minmax (p : Poly) : Vec2 × Vec2 :=
  match p.point with
  | [] => ((0, 0), (0, 0))
  | v :: t =>
    t.foldl
      (fun pr w => ((min pr.1.1 w.1, min pr.1.2 w.2), (max pr.2.1 w.1, max pr.2.2 w.2)))
      (v, v)

/-- Modelled from the spec: cp_csg2_poly_merge appends the paths of b,
reindexed, to a.  The effect of the C function on b itself is not part of
any claim and is not modelled. -/
def poly_merge (a b : Poly) : Poly :=
  { point := a.point ++ b.point,
    path := a.path ++ b.path.map (fun pa => pa.map (fun i => i + a.point.length)) }

/-- The bounding box disjointness test of the driver (OPT level 2). -/
def bbox_disjoint (a b : Poly) : Bool :=
  let bb0 := poly_minmax a
  let bb1 := poly_minmax b
  cp_gt bb0.1.1 bb1.2.1 || cp_gt bb1.1.1 bb0.2.1 ||
  cp_gt bb0.1.2 bb1.2.2 || cp_gt bb1.1.2 bb0.2.2

def path_nth (p : Poly) (pa : List Nat) (j : Nat) : Vec2 :=
  p.point.getD (pa.getD j 0) (0, 0)

/-- Load all edges of a polygon into the queue with the given polygon id. -/
def load_poly (c : Ctxt) (p : Poly) (poly_id : Nat) : Ctxt :=
  p.path.foldl
    (fun c pa =>
      (List.range pa.length).foldl
        (fun c j => q_add_orig c (path_nth p pa j) (path_nth p pa ((j + 1) % pa.length)) poly_id)
        c)
    c

def sweep_fuel : Nat := 1000

/-- cp_csg2_op_poly: the driver.  The result models the triple of objects
behind the three pointer arguments after the call, in the order r, a, b,
so the swap based shortcut branches are observable. -/
def cp_csg2_op_poly (r a b : Poly) (op : BoolOp) : Poly × Poly × Poly :=
  if a.path.length = 0 ∨ b.path.length = 0 then
    match op with
    | .cut => (r, a, b)
    | .sub => (a, r, b)
    | .add => if a.path.length = 0 then (b, a, r) else (a, r, b)
    | .xor => if a.path.length = 0 then (b, a, r) else (a, r, b)
  else
    let bb0 := poly_minmax a
    let bb1 := poly_minmax b
    let mmx := min bb0.2.1 bb1.2.1
    if bbox_disjoint a b then
      match op with
      | .cut => (r, a, b)
      | .sub => (a, r, b)
      | .add => (poly_merge a b, r, b)
      | .xor => (poly_merge a b, r, b)
    else
      let c : Ctxt :=
        { pts := [], evs := [], q := [], s := [], ends := [], poly := [],
          out_idx := [], out_point := [], out_path := [],
          op := op, mask_neg := if op == BoolOp.sub then 2 else 0, mask_all := 3,
          minmaxx := mmx, bb0maxx := bb0.2.1 }
      let c := load_poly c a 0
      let c := load_poly c b 1
      let c := sweep sweep_fuel c
      let c := poly_make c
      ({ point := c.out_point, path := c.out_path }, a, b)

/-
Concrete inputs used by the theorems below.
-/

/-- Outer square with corners (0,0) and (4,4). -/
def sqOuter : Poly := { point := [(0,0),(4,0),(4,4),(0,4)], path := [[0,1,2,3]] }

/-- Inner square with corners (1,1) and (3,3), strictly inside sqOuter. -/
def sqInner : Poly := { point := [(1,1),(3,1),(3,3),(1,3)], path := [[0,1,2,3]] }

/-- Degenerate path of spec scenario 6: two collinear hops and back. -/
def polyDeg : Poly := { point := [(0,0),(1,0),(0,0)], path := [[0,1,2]] }

/-- Wide rectangle, maximal x coordinate 100. -/
def polyA100 : Poly := { point := [(0,0),(100,0),(100,10),(0,10)], path := [[0,1,2,3]] }

/-- Small rectangle strictly inside polyA100, maximal x coordinate 40. -/
def polyB40 : Poly := { point := [(20,2),(40,2),(40,8),(20,8)], path := [[0,1,2,3]] }

/-- Context for the amended C2 witness: one event queued at x = 5, with
op SUBTRACT, minmaxx = 1 and bb0maxx = 1. -/
def c2w : Ctxt :=
  { pts := [(5, 0)],
    evs := [{ p := 0, other := 0, left := true, owner := 1, below := 0,
              used := false, line_a := 0, line_b := 0, line_swap := false, nbrs := [] }],
    q := [0], s := [], ends := [], poly := [],
    out_idx := [], out_point := [], out_path := [],
    op := BoolOp.sub, mask_neg := 2, mask_all := 3, minmaxx := 1, bb0maxx := 1 }

/-
Overlap configuration states for the intersection engine.  Two collinear
horizontal edges are placed in S: events 0 and 1 form the lower edge el,
events 2 and 3 the upper edge eh.  The owner and below masks are
parameters; the line formula caches are irrelevant for the overlap
branch and are zeroed.
-/

/-- Event literal for the overlap configuration states. -/
def mkev (p o : Nat) (lf : Bool) (ow bw : Nat) : Event :=
  { p := p, other := o, left := lf, owner := ow, below := bw,
    used := false, line_a := 0, line_b := 0, line_swap := false, nbrs := [] }

/-- Context with the two configured edges in S and an empty queue. -/
def mkst (pts : List Vec2) (evs : List Event) : Ctxt :=
  { pts := pts, evs := evs, q := [], s := [0, 2], ends := [], poly := [],
    out_idx := [], out_point := [], out_path := [],
    op := BoolOp.add, mask_neg := 0, mask_all := 3, minmaxx := 0, bb0maxx := 0 }

/-- Coinciding edges: both el and eh run from (0,0) to (2,0). -/
def st_cc (oL bL oLr bLr oH bH oHr bHr : Nat) : Ctxt :=
  mkst [(0,0),(2,0)]
    [mkev 0 1 true oL bL, mkev 1 0 false oLr bLr, mkev 0 3 true oH bH, mkev 1 2 false oHr bHr]

/-- Shared left endpoint, el shorter: el (0,0)--(2,0), eh (0,0)--(4,0). -/
def st_sl (oL bL oLr bLr oH bH oHr bHr : Nat) : Ctxt :=
  mkst [(0,0),(2,0),(4,0)]
    [mkev 0 1 true oL bL, mkev 1 0 false oLr bLr, mkev 0 3 true oH bH, mkev 2 2 false oHr bHr]

/-- Shared right endpoint, el longer: el (0,0)--(4,0), eh (2,0)--(4,0). -/
def st_sr (oL bL oLr bLr oH bH oHr bHr : Nat) : Ctxt :=
  mkst [(0,0),(4,0),(2,0)]
    [mkev 0 1 true oL bL, mkev 1 0 false oLr bLr, mkev 2 3 true oH bH, mkev 1 2 false oHr bHr]

/-- Partial overlap: el (0,0)--(4,0), eh (2,0)--(6,0). -/
def st_po (oL bL oLr bLr oH bH oHr bHr : Nat) : Ctxt :=
  mkst [(0,0),(4,0),(2,0),(6,0)]
    [mkev 0 1 true oL bL, mkev 1 0 false oLr bLr, mkev 2 3 true oH bH, mkev 3 2 false oHr bHr]

/-- Containment: el (0,0)--(6,0), eh (2,0)--(4,0). -/
def st_ct (oL bL oLr bLr oH bH oHr bHr : Nat) : Ctxt :=
  mkst [(0,0),(6,0),(2,0),(4,0)]
    [mkev 0 1 true oL bL, mkev 1 0 false oLr bLr, mkev 2 3 true oH bH, mkev 3 2 false oHr bHr]


/-- Context for the C4 witness: two events at the same point, event 0 a
right event, event 1 a left event of another edge. -/
def c4w : Ctxt :=
  { pts := [(0,0),(1,1)],
    evs := [mkev 0 1 false 1 0, mkev 0 1 true 1 0],
    q := [], s := [], ends := [], poly := [], out_idx := [], out_point := [],
    out_path := [], op := BoolOp.add, mask_neg := 0, mask_all := 3,
    minmaxx := 0, bb0maxx := 0 }

/-- Context for the C6 witness: one left/right event pair for the edge
from (0,0) to (2,0), split at the registered point (1,0). -/
def c6w : Ctxt :=
  { pts := [(0,0),(2,0),(1,0)],
    evs := [mkev 0 1 true 1 0, mkev 1 0 false 1 0],
    q := [0, 1], s := [], ends := [], poly := [], out_idx := [], out_point := [],
    out_path := [], op := BoolOp.add, mask_neg := 0, mask_all := 3,
    minmaxx := 0, bb0maxx := 0 }

/-- The queue invariant of claim C6: the left flag is set exactly when
the event own point precedes the partner point. -/
def q_inv (c : Ctxt) (i : Nat) : Prop :=
  (pt_cmp c (evGet c i).p (evGet c (evGet c i).other).p < 0) ↔ (evGet c i).left = true

/-- Owner and below masks of every event in the pool, in allocation
order; the observation used by the C5 theorem. -/
def mask_profile (c : Ctxt) : List (Nat × Nat) := c.evs.map (fun e => (e.owner, e.below))

/-
Theorems.  First the bridge lemmas for the reducible rational layer and
the generic helper lemmas, then one theorem per claim, each with its
witness where the statement carries hypotheses.
-/

theorem qadd_eq (a b : ℚ) : qadd a b = a + b := (Rat.add_def' a b).symm

theorem qsub_eq (a b : ℚ) : qsub a b = a - b := (Rat.sub_def' a b).symm

theorem qmul_eq (a b : ℚ) : qmul a b = a * b := by
  rw [qmul, Rat.mul_def, Rat.normalize_eq_mkRat]

theorem qdiv_eq (a b : ℚ) : qdiv a b = a / b := by
  rcases eq_or_ne b 0 with rfl | hb
  · show Rat.divInt (a.num * (0 : ℚ).den) (a.den * (0 : ℚ).num) = a / 0
    simp
  · have had : ((a.den : ℚ)) ≠ 0 := Nat.cast_ne_zero.mpr a.den_nz
    have hbd : ((b.den : ℚ)) ≠ 0 := Nat.cast_ne_zero.mpr b.den_nz
    have hbn : ((b.num : ℚ)) ≠ 0 := Int.cast_ne_zero.mpr (Rat.num_ne_zero.mpr hb)
    have h1 : (a.num : ℚ) = a * a.den := by
      have h := Rat.num_div_den a
      rw [div_eq_iff had] at h
      exact h
    have h2 : (b.num : ℚ) = b * b.den := by
      have h := Rat.num_div_den b
      rw [div_eq_iff hbd] at h
      exact h
    rw [qdiv, Rat.divInt_eq_div]
    push_cast
    rw [div_eq_div_iff (mul_ne_zero had hbn) hb, h1, h2]
    ring

theorem pt_new_q (c : Ctxt) (v : Vec2) : (pt_new c v).1.q = c.q := by
  unfold pt_new
  dsimp only
  split <;> rfl

theorem pt_new_evs (c : Ctxt) (v : Vec2) : (pt_new c v).1.evs = c.evs := by
  unfold pt_new
  dsimp only
  split <;> rfl


theorem rn_swap23 (a b c : Vec2) :
    cp_vec2_right_normal3_z a b c = - cp_vec2_right_normal3_z a c b := by
  simp only [cp_vec2_right_normal3_z, qsub_eq, qmul_eq]
  ring

theorem rn_swap13 (a b c : Vec2) :
    cp_vec2_right_normal3_z a b c = - cp_vec2_right_normal3_z c b a := by
  simp only [cp_vec2_right_normal3_z, qsub_eq, qmul_eq]
  ring

theorem sgn_pos_iff (q : ℚ) : 0 < sgn q ↔ 0 < q := by
  unfold sgn
  rcases lt_trichotomy q 0 with h | h | h
  · rw [if_pos h]
    constructor
    · intro hc; norm_num at hc
    · intro hc; linarith
  · subst h
    simp
  · rw [if_neg (not_lt.mpr h.le), if_pos h]
    simp [h]

theorem sgn_neg_of_pos {q : ℚ} (h : 0 < sgn q) : sgn (-q) < 0 := by
  have hq : 0 < q := (sgn_pos_iff q).mp h
  unfold sgn
  rw [if_pos (by linarith : -q < 0)]
  norm_num

theorem pt2_pt_cmp_rev13 (a b c : Vec2) (h : 0 < pt2_pt_cmp a b c) : pt2_pt_cmp c b a < 0 := by
  unfold pt2_pt_cmp at h ⊢
  rw [rn_swap13 c b a]
  exact sgn_neg_of_pos h

theorem pt2_pt_cmp_rev23 (a b c : Vec2) (h : 0 < pt2_pt_cmp a b c) : pt2_pt_cmp a c b < 0 := by
  unfold pt2_pt_cmp at h ⊢
  rw [rn_swap23 a c b]
  exact sgn_neg_of_pos h


theorem getD_set_self (l : List Event) (i : Nat) (x : Event) (h : i < l.length) :
    (l.set i x).getD i default = x := by
  induction l generalizing i with
  | nil => simp at h
  | cons a t ih =>
    cases i with
    | zero => rfl
    | succ k =>
      simp only [List.set_cons_succ, List.getD_cons_succ]
      exact ih k (by simpa using h)

theorem getD_set_ne (l : List Event) (i j : Nat) (x : Event) (h : i ≠ j) :
    (l.set j x).getD i default = l.getD i default := by
  induction l generalizing i j with
  | nil => simp
  | cons a t ih =>
    cases j with
    | zero =>
      cases i with
      | zero => exact absurd rfl h
      | succ k => rfl
    | succ m =>
      cases i with
      | zero => rfl
      | succ k =>
        simp only [List.set_cons_succ, List.getD_cons_succ]
        exact ih k m (fun hh => h (by rw [hh]))

theorem getD_append_lt (l l2 : List Event) (i : Nat) (h : i < l.length) :
    (l ++ l2).getD i default = l.getD i default := by
  induction l generalizing i with
  | nil => simp at h
  | cons a t ih =>
    cases i with
    | zero => rfl
    | succ k =>
      simp only [List.cons_append, List.getD_cons_succ]
      exact ih k (by simpa using h)

theorem getD_append_fst (l : List Event) (x y : Event) :
    (l ++ [x, y]).getD l.length default = x := by
  induction l with
  | nil => rfl
  | cons a t ih => simpa using ih

theorem getD_append_snd (l : List Event) (x y : Event) :
    (l ++ [x, y]).getD (l.length + 1) default = y := by
  induction l with
  | nil => rfl
  | cons a t ih => simpa using ih

theorem lex_eq_zero_iff (a b : Vec2) : cp_vec2_lex_pt_cmp a b = 0 ↔ a = b := by
  unfold cp_vec2_lex_pt_cmp
  constructor
  · intro h
    split_ifs at h <;> try norm_num at h
    next h1 h2 h3 h4 =>
      have hx : a.1 = b.1 := le_antisymm (not_lt.mp h2) (not_lt.mp h1)
      have hy : a.2 = b.2 := le_antisymm (not_lt.mp h4) (not_lt.mp h3)
      exact Prod.ext hx hy
  · intro h
    subst h
    simp

theorem lex_antisymm (a b : Vec2) : cp_vec2_lex_pt_cmp b a = - cp_vec2_lex_pt_cmp a b := by
  unfold cp_vec2_lex_pt_cmp
  rcases lt_trichotomy a.1 b.1 with h | h | h
  · rw [if_neg (asymm h), if_pos h, if_pos h]
    norm_num
  · simp only [h, lt_self_iff_false, if_false]
    rcases lt_trichotomy a.2 b.2 with h2 | h2 | h2
    · rw [if_neg (asymm h2), if_pos h2, if_pos h2]
      norm_num
    · simp only [h2, lt_self_iff_false, if_false]
      norm_num
    · rw [if_pos h2, if_neg (asymm h2), if_pos h2]
  · rw [if_pos h, if_neg (asymm h), if_pos h]

theorem pt_cmp_antisymm (c : Ctxt) (a b : Nat) : pt_cmp c b a = - pt_cmp c a b := by
  unfold pt_cmp
  by_cases h : a = b
  · subst h
    simp
  · rw [if_neg h, if_neg (Ne.symm h)]
    exact lex_antisymm _ _

theorem pt_cmp_ne_zero (c : Ctxt) (a b : Nat) (h : a ≠ b)
    (hc : ptGet c a ≠ ptGet c b) : pt_cmp c a b ≠ 0 := by
  unfold pt_cmp
  rw [if_neg h]
  intro h0
  exact hc ((lex_eq_zero_iff _ _).mp h0)

theorem q_inv_q_insert (c : Ctxt) (i j : Nat) : q_inv (q_insert c i) j ↔ q_inv c j :=
  Iff.rfl

theorem q_add_orig_left_inv (c : Ctxt) (v1 v2 : Vec2) (pid : Nat)
    (hne : (pt_new c v1).2 ≠ (pt_new (pt_new c v1).1 v2).2)
    (hco : ptGet (pt_new (pt_new c v1).1 v2).1 (pt_new c v1).2 ≠
      ptGet (pt_new (pt_new c v1).1 v2).1 (pt_new (pt_new c v1).1 v2).2) :
    q_inv (q_add_orig c v1 v2 pid) c.evs.length ∧
    q_inv (q_add_orig c v1 v2 pid) (c.evs.length + 1) := by
  have hevs : (pt_new (pt_new c v1).1 v2).1.evs = c.evs := by
    rw [pt_new_evs, pt_new_evs]
  have hzero : pt_cmp (pt_new (pt_new c v1).1 v2).1 (pt_new c v1).2
      (pt_new (pt_new c v1).1 v2).2 ≠ 0 := pt_cmp_ne_zero _ _ _ hne hco
  unfold q_add_orig
  dsimp only
  rw [if_neg hne]
  simp only [q_inv_q_insert]
  by_cases hsw : pt_cmp (pt_new (pt_new c v1).1 v2).1 (pt_new c v1).2
      (pt_new (pt_new c v1).1 v2).2 > 0
  · simp only [if_pos hsw]
    unfold pt_cmp ptGet at hsw
    rw [if_neg hne] at hsw
    constructor
    · unfold q_inv evGet
      dsimp only
      simp only [hevs, getD_append_fst, getD_append_snd]
      unfold pt_cmp ptGet
      dsimp only
      rw [if_neg hne]
      exact iff_of_false (by omega) (by simp)
    · unfold q_inv evGet
      dsimp only
      simp only [hevs, getD_append_fst, getD_append_snd]
      unfold pt_cmp ptGet
      dsimp only
      rw [if_neg (Ne.symm hne), lex_antisymm]
      exact iff_of_true (by omega) trivial
  · simp only [if_neg hsw]
    unfold pt_cmp ptGet at hsw hzero
    rw [if_neg hne] at hsw hzero
    constructor
    · unfold q_inv evGet
      dsimp only
      simp only [hevs, getD_append_fst, getD_append_snd]
      unfold pt_cmp ptGet
      dsimp only
      rw [if_neg hne]
      exact iff_of_true (by omega) trivial
    · unfold q_inv evGet
      dsimp only
      simp only [hevs, getD_append_fst, getD_append_snd]
      unfold pt_cmp ptGet
      dsimp only
      rw [if_neg (Ne.symm hne), lex_antisymm]
      exact iff_of_false (by omega) (by simp)

theorem getD1_ei (evs : List Event) (r l A : Event) (oi ei : Nat)
    (hne : ei ≠ oi) (hei : ei < evs.length) :
    ((evs ++ [r, l]).set oi A).getD ei default = evs.getD ei default := by
  rw [getD_set_ne _ ei oi _ hne, getD_append_lt _ _ ei hei]

theorem getD2_len (evs : List Event) (r l A B : Event) (oi ei : Nat)
    (hei : ei < evs.length) (hoi : oi < evs.length) :
    (((evs ++ [r, l]).set oi A).set ei B).getD evs.length default = r := by
  rw [getD_set_ne _ evs.length ei _ (by omega),
    getD_set_ne _ evs.length oi _ (by omega), getD_append_fst]

theorem getD2_lenp1 (evs : List Event) (r l A B : Event) (oi ei : Nat)
    (hei : ei < evs.length) (hoi : oi < evs.length) :
    (((evs ++ [r, l]).set oi A).set ei B).getD (evs.length + 1) default = l := by
  rw [getD_set_ne _ (evs.length + 1) ei _ (by omega),
    getD_set_ne _ (evs.length + 1) oi _ (by omega), getD_append_snd]

theorem getD2_ei (evs : List Event) (r l A B : Event) (oi ei : Nat)
    (hei : ei < evs.length) :
    (((evs ++ [r, l]).set oi A).set ei B).getD ei default = B := by
  have hb : ei < ((evs ++ [r, l]).set oi A).length := by simp; omega
  rw [getD_set_self _ ei _ hb]

theorem getD2_oi (evs : List Event) (r l A B : Event) (oi ei : Nat)
    (hne : ei ≠ oi) (hoi : oi < evs.length) :
    (((evs ++ [r, l]).set oi A).set ei B).getD oi default = A := by
  have hb : oi < (evs ++ [r, l]).length := by simp; omega
  rw [getD_set_ne _ oi ei _ (Ne.symm hne), getD_set_self _ oi _ hb]

theorem getD3_lenp1 (evs : List Event) (r l A B V : Event) (oi ei : Nat)
    (hei : ei < evs.length) (hoi : oi < evs.length) :
    ((((evs ++ [r, l]).set oi A).set ei B).set oi V).getD (evs.length + 1) default = l := by
  rw [getD_set_ne _ (evs.length + 1) oi _ (by omega)]
  exact getD2_lenp1 evs r l A B oi ei hei hoi

theorem getD4_len (evs : List Event) (r l A B V W : Event) (oi ei : Nat)
    (hei : ei < evs.length) (hoi : oi < evs.length) :
    (((((evs ++ [r, l]).set oi A).set ei B).set oi V).set
      (evs.length + 1) W).getD evs.length default = r := by
  rw [getD_set_ne _ evs.length (evs.length + 1) _ (by omega),
    getD_set_ne _ evs.length oi _ (by omega)]
  exact getD2_len evs r l A B oi ei hei hoi

theorem getD4_lenp1 (evs : List Event) (r l A B V W : Event) (oi ei : Nat) :
    (((((evs ++ [r, l]).set oi A).set ei B).set oi V).set
      (evs.length + 1) W).getD (evs.length + 1) default = W := by
  have hb : evs.length + 1 < ((((evs ++ [r, l]).set oi A).set ei B).set oi V).length := by
    simp
  rw [getD_set_self _ (evs.length + 1) _ hb]

theorem getD4_ei (evs : List Event) (r l A B V W : Event) (oi ei : Nat)
    (hne : ei ≠ oi) (hei : ei < evs.length) :
    (((((evs ++ [r, l]).set oi A).set ei B).set oi V).set
      (evs.length + 1) W).getD ei default = B := by
  rw [getD_set_ne _ ei (evs.length + 1) _ (by omega), getD_set_ne _ ei oi _ hne]
  exact getD2_ei evs r l A B oi ei hei

theorem getD4_oi (evs : List Event) (r l A B V W : Event) (oi ei : Nat)
    (hne : ei ≠ oi) (hoi : oi < evs.length) :
    (((((evs ++ [r, l]).set oi A).set ei B).set oi V).set
      (evs.length + 1) W).getD oi default = V := by
  have hb : oi < (((evs ++ [r, l]).set oi A).set ei B).length := by simp; omega
  rw [getD_set_ne _ oi (evs.length + 1) _ (by omega), getD_set_self _ oi _ hb]

theorem divide_segment_left_inv (c : Ctxt) (ei p : Nat)
    (hei : ei < c.evs.length)
    (hoi : (evGet c ei).other < c.evs.length)
    (hne : ei ≠ (evGet c ei).other)
    (holeft : (evGet c (evGet c ei).other).left = false)
    (hlt : pt_cmp c (evGet c ei).p p < 0)
    (hco : p ≠ (evGet c (evGet c ei).other).p →
      ptGet c p ≠ ptGet c (evGet c (evGet c ei).other).p) :
    q_inv (divide_segment c ei p) c.evs.length ∧
    q_inv (divide_segment c ei p) (c.evs.length + 1) := by
  unfold evGet at hoi hne holeft hlt hco
  have hep : (c.evs.getD ei default).p ≠ p := by
    intro h
    unfold pt_cmp at hlt
    rw [if_pos h] at hlt
    omega
  unfold pt_cmp ptGet at hlt
  rw [if_neg hep] at hlt
  unfold ptGet at hco
  unfold divide_segment evMod evSet evGet
  dsimp only
  simp only [q_inv_q_insert]
  split
  case isTrue hcond =>
    unfold q_inv evGet
    dsimp only
    rw [getD_append_lt _ _ ((c.evs.getD ei default).other) hoi]
    rw [getD1_ei _ _ _ _ _ _ hne hei]
    rw [getD2_oi _ _ _ _ _ _ _ hne hoi]
    rw [getD3_lenp1 _ _ _ _ _ _ _ _ hei hoi]
    dsimp only
    constructor
    · rw [getD4_len _ _ _ _ _ _ _ _ _ hei hoi]
      dsimp only
      rw [getD4_ei _ _ _ _ _ _ _ _ _ hne hei]
      dsimp only
      unfold pt_cmp ptGet
      dsimp only
      rw [if_neg (Ne.symm hep), lex_antisymm]
      exact iff_of_false (by omega) (by simp)
    · rw [getD4_lenp1]
      dsimp only
      rw [getD4_oi _ _ _ _ _ _ _ _ _ hne hoi]
      dsimp only
      unfold pt_cmp ptGet
      dsimp only
      by_cases hpo : p = (c.evs.getD ((c.evs.getD ei default).other) default).p
      · rw [if_pos hpo]
        exact iff_of_false (by omega) (by simp)
      · unfold ev_cmp pt_cmp ptGet evGet at hcond
        dsimp only at hcond
        rw [getD2_lenp1 _ _ _ _ _ _ _ hei hoi] at hcond
        rw [getD2_oi _ _ _ _ _ _ _ hne hoi] at hcond
        rw [getD_append_lt _ _ _ hoi] at hcond
        dsimp only at hcond
        rw [if_pos hpo, if_neg hpo] at hcond
        rw [if_neg hpo]
        exact iff_of_false (by omega) (by simp)
  case isFalse hcond =>
    unfold q_inv evGet
    dsimp only
    rw [getD_append_lt _ _ ((c.evs.getD ei default).other) hoi]
    rw [getD1_ei _ _ _ _ _ _ hne hei]
    constructor
    · rw [getD2_len _ _ _ _ _ _ _ hei hoi]
      dsimp only
      rw [getD2_ei _ _ _ _ _ _ _ hei]
      dsimp only
      unfold pt_cmp ptGet
      dsimp only
      rw [if_neg (Ne.symm hep), lex_antisymm]
      exact iff_of_false (by omega) (by simp)
    · rw [getD2_lenp1 _ _ _ _ _ _ _ hei hoi]
      dsimp only
      rw [getD2_oi _ _ _ _ _ _ _ hne hoi]
      dsimp only
      unfold pt_cmp ptGet
      dsimp only
      by_cases hpo : p = (c.evs.getD ((c.evs.getD ei default).other) default).p
      · unfold ev_cmp pt_cmp ptGet evGet at hcond
        dsimp only at hcond
        rw [getD2_lenp1 _ _ _ _ _ _ _ hei hoi] at hcond
        rw [getD2_oi _ _ _ _ _ _ _ hne hoi] at hcond
        rw [getD_append_lt _ _ _ hoi] at hcond
        dsimp only at hcond
        rw [if_neg (not_not_intro hpo), holeft] at hcond
        norm_num at hcond
      · unfold ev_cmp pt_cmp ptGet evGet at hcond
        dsimp only at hcond
        rw [getD2_lenp1 _ _ _ _ _ _ _ hei hoi] at hcond
        rw [getD2_oi _ _ _ _ _ _ _ hne hoi] at hcond
        rw [getD_append_lt _ _ _ hoi] at hcond
        dsimp only at hcond
        rw [if_pos hpo, if_neg hpo] at hcond
        have hL : cp_vec2_lex_pt_cmp (c.pts.getD p (0, 0))
            (c.pts.getD ((c.evs.getD ((c.evs.getD ei default).other) default).p) (0, 0)) ≠ 0 :=
          fun h0 => (hco hpo) ((lex_eq_zero_iff _ _).mp h0)
        rw [if_neg hpo]
        exact iff_of_true (by omega) rfl
/-- C1: the classifier computes above as below xor owner and emits exactly
when the in values differ; for UNION, INTERSECT and SUBTRACT the in rule
follows the claim, but for XOR the code uses odd_parity, which folds with
left shifts and returns the lowest bit of its argument instead of the
popcount parity stated by the claim and by the comment block inside
ev_right.  At mask 2 (an edge owned only by polygon B, outside everything
below it) odd_parity returns false although the popcount of 2 is odd, so
the code does not emit the edge although the claimed rule requires the
emission: the in value of below = 0 and of above = 0 xor 2 coincide for
the code and differ for the claimed popcount rule. -/
theorem c1_classifier_xor_popcount_bug :
    odd_parity 2 = false ∧ odd_popcount 2 = true ∧
    ev_in BoolOp.xor 0 3 0 = ev_in BoolOp.xor 0 3 (0 ^^^ 2) ∧
    odd_popcount 0 ≠ odd_popcount (0 ^^^ 2) ∧
    ev_in BoolOp.add 0 3 0 = false ∧ ev_in BoolOp.add 0 3 1 = true ∧
    ev_in BoolOp.cut 0 3 3 = true ∧ ev_in BoolOp.cut 0 3 1 = false ∧
    ev_in BoolOp.sub 2 3 1 = true ∧ ev_in BoolOp.sub 2 3 3 = false := by decide

/-- C2 counterexample: with op SUBTRACT, an event x of 5, maximal x of A
equal to 10 and maximal x of B equal to 1, the claimed condition holds
(5 is beyond min(10,1) by more than epsilon) but the driver does not stop:
op_stop is false, because for SUBTRACT the code compares against the
maximal x of A alone.  On the full run with polyA100 minus polyB40 the
sweep consequently processes events beyond min(100,40) and the result
still contains the corner (100,0). -/
theorem c2_sub_stop_counterexample :
    op_stop BoolOp.sub 5 (min 10 1) 10 = false ∧
    cp_pt_gt 5 (min 10 1) = true ∧
    (100, 0) ∈ (cp_csg2_op_poly poly_empty polyA100 polyB40 BoolOp.sub).1.point := by
  decide

/-- C2 amended: the driver stops the loop at an extracted event exactly
when op is INTERSECT and the event x exceeds min(maxXA, maxXB) by more
than epsilon, or when op is SUBTRACT and the event x exceeds maxXA, the
maximal x coordinate of the first input, by more than epsilon; UNION and
XOR never stop early.  When the stop condition holds on the head of the
queue, one sweep step discards that event and returns with the rest of
the queue untouched. -/
theorem c2_stop_amended :
    (∀ x mmx amax : ℚ, op_stop BoolOp.sub x mmx amax = cp_pt_gt x amax) ∧
    (∀ x mmx amax : ℚ, op_stop BoolOp.cut x mmx amax = cp_pt_gt x mmx) ∧
    (∀ x mmx amax : ℚ, op_stop BoolOp.add x mmx amax = false) ∧
    (∀ x mmx amax : ℚ, op_stop BoolOp.xor x mmx amax = false) ∧
    (∀ (fuel : Nat) (c : Ctxt) (e : Nat) (rest : List Nat),
      c.q = e :: rest →
      op_stop c.op (ptGet c (evGet c e).p).1 c.minmaxx c.bb0maxx = true →
      sweep (fuel + 1) c = { c with q := rest }) := by
  refine ⟨fun x mmx amax => by simp [op_stop], fun x mmx amax => by simp [op_stop],
    fun x mmx amax => by simp [op_stop], fun x mmx amax => by simp [op_stop], ?_⟩
  intro fuel c e rest hq hstop
  rw [sweep, hq]
  simp only []
  have hstop2 : op_stop ({ c with q := rest }).op
      (ptGet { c with q := rest } (evGet { c with q := rest } e).p).1
      ({ c with q := rest }).minmaxx ({ c with q := rest }).bb0maxx = true := hstop
  simp [hstop2]

/-- Witness for the amended C2 theorem at a concrete context. -/
theorem c2_stop_amended_witness : sweep 1 c2w = { c2w with q := [] } :=
  c2_stop_amended.2.2.2.2 0 c2w 0 [] rfl (by decide)

/-- C3: the boolean operation is not symmetric in its two inputs for XOR.
With the outer and inner squares, XOR of (outer, inner) yields only the
boundary of the outer square, while XOR of (inner, outer) yields only the
boundary of the inner square: the lowest bit classifier of odd_parity
keeps exactly the edges owned by polygon 0.  The corner (1,1) of the
inner square distinguishes the two results. -/
theorem c3_xor_not_commutative :
    (cp_csg2_op_poly poly_empty sqOuter sqInner BoolOp.xor).1 ≠
      (cp_csg2_op_poly poly_empty sqInner sqOuter BoolOp.xor).1 ∧
    (1, 1) ∉ (cp_csg2_op_poly poly_empty sqOuter sqInner BoolOp.xor).1.point ∧
    (1, 1) ∈ (cp_csg2_op_poly poly_empty sqInner sqOuter BoolOp.xor).1.point := by
  decide

/-- C4: the event queue order ev_cmp.  Events at distinct point objects
compare by pt_cmp, the lexicographic x-then-y coordinate order (first
conjunct); at the same point a right event precedes a left event (second
conjunct); at the same point with the same direction flag, an event whose
partner endpoint lies strictly below the other event supporting line
(pt2_pt_cmp positive, the sign convention of the code) precedes it (third
conjunct). -/
theorem c4_ev_cmp_order :
    (∀ (c : Ctxt) (i j : Nat), (evGet c i).p ≠ (evGet c j).p →
      ev_cmp c i j = pt_cmp c (evGet c i).p (evGet c j).p) ∧
    (∀ (c : Ctxt) (i j : Nat), (evGet c i).p = (evGet c j).p →
      (evGet c i).left = false → (evGet c j).left = true → ev_cmp c i j < 0) ∧
    (∀ (c : Ctxt) (i j : Nat), (evGet c i).p = (evGet c j).p →
      (evGet c i).left = (evGet c j).left →
      0 < pt2_pt_cmp (ptGet c (ev_leftp c j)) (ptGet c (ev_rightp c j))
            (ptGet c (evGet c (evGet c i).other).p) →
      ev_cmp c i j < 0) := by
  refine ⟨?_, ?_, ?_⟩
  · intro c i j h
    simp [ev_cmp, h]
  · intro c i j hp hi hj
    simp [ev_cmp, hp, hi, hj]
  · intro c i j hp hl hcmp
    cases hli : (evGet c i).left
    case true =>
      have hlj : (evGet c j).left = true := by rw [← hl, hli]
      have he : ev_cmp c i j =
          pt2_pt_cmp (ptGet c (ev_leftp c i)) (ptGet c (ev_rightp c i))
            (ptGet c (evGet c (evGet c j).other).p) := by
        simp [ev_cmp, hp, hli, hlj]
      have hl1 : ev_leftp c i = (evGet c i).p := by simp [ev_leftp, hli]
      have hr1 : ev_rightp c i = (evGet c (evGet c i).other).p := by simp [ev_rightp, hli]
      have hl2 : ev_leftp c j = (evGet c j).p := by simp [ev_leftp, hlj]
      have hr2 : ev_rightp c j = (evGet c (evGet c j).other).p := by simp [ev_rightp, hlj]
      rw [hl2, hr2] at hcmp
      rw [he, hl1, hr1, hp]
      exact pt2_pt_cmp_rev23 _ _ _ hcmp
    case false =>
      have hlj : (evGet c j).left = false := by rw [← hl, hli]
      have he : ev_cmp c i j =
          pt2_pt_cmp (ptGet c (ev_leftp c i)) (ptGet c (ev_rightp c i))
            (ptGet c (evGet c (evGet c j).other).p) := by
        simp [ev_cmp, hp, hli, hlj]
      have hl1 : ev_leftp c i = (evGet c (evGet c i).other).p := by simp [ev_leftp, hli]
      have hr1 : ev_rightp c i = (evGet c i).p := by simp [ev_rightp, hli]
      have hl2 : ev_leftp c j = (evGet c (evGet c j).other).p := by simp [ev_leftp, hlj]
      have hr2 : ev_rightp c j = (evGet c j).p := by simp [ev_rightp, hlj]
      rw [hl2, hr2] at hcmp
      rw [he, hl1, hr1, hp]
      exact pt2_pt_cmp_rev13 _ _ _ hcmp


theorem c4_ev_cmp_order_witness : ev_cmp c4w 0 1 < 0 :=
  c4_ev_cmp_order.2.1 c4w 0 1 rfl rfl rfl

/-- C5: overlap resolution of the intersection engine, over the five
canonical configurations, observed as the full owner/below mask profile
of every event in the pool.  In each case let ow = owner(eh) xor
owner(el) and bw = below(el).  Along the overlapping stretch exactly one
of the two edges keeps the combined mask ow with below bw while the
other has its owner cleared to 0, and the piece above the overlap sees
below = bw xor ow.  For coinciding edges (first conjunct) all eight
owner and below masks are fully universally quantified: eh and its
partner receive owner ow, eh receives below bw, and el and its partner
receive owner 0.  For the four splitting configurations the owner masks
of the two left events range over the complete owner domain of the
algorithm (mask_all is 3, so every owner mask lies below 4), while the
below masks carry the distinct sentinel values 8 (el), 32 (el partner),
9 (eh), 128 (eh partner), which shows exactly how below values are
propagated and copied.  Events 4 and 5 (and 6 and 7) are the events
allocated by divide_segment, in allocation order r before l. -/
theorem c5_overlap_masks :
    (∀ oL bL oLr bLr oH bH oHr bHr : Nat,
      mask_profile (check_intersection (st_cc oL bL oLr bLr oH bH oHr bHr) 0 2) =
        [(0, bL), (0, bLr), (oH ^^^ oL, bL), (oH ^^^ oL, bHr)]) ∧
    (∀ oL oH : Fin 4,
      mask_profile (check_intersection (st_sl (oL : Nat) 8 16 32 (oH : Nat) 9 64 128) 0 2) =
        [(0, 8), (0, 32), ((oH : Nat) ^^^ (oL : Nat), 8), (64, 128),
         ((oH : Nat) ^^^ (oL : Nat), 8), (64, 128)]) ∧
    (∀ oL oH : Fin 4,
      mask_profile (check_intersection (st_sr (oL : Nat) 8 16 32 (oH : Nat) 9 64 128) 0 2) =
        [((oL : Nat), 8), ((oH : Nat) ^^^ (oL : Nat), 8),
         (0, 8 ^^^ ((oH : Nat) ^^^ (oL : Nat))), (0, 128),
         ((oL : Nat), 8), ((oH : Nat) ^^^ (oL : Nat), 8)]) ∧
    (∀ oL oH : Fin 4,
      mask_profile (check_intersection (st_po (oL : Nat) 8 16 32 (oH : Nat) 9 64 128) 0 2) =
        [((oL : Nat), 8), ((oH : Nat) ^^^ (oL : Nat), 8),
         (0, 8 ^^^ ((oH : Nat) ^^^ (oL : Nat))), (64, 128),
         ((oL : Nat), 8), ((oH : Nat) ^^^ (oL : Nat), 8),
         (0, 8 ^^^ ((oH : Nat) ^^^ (oL : Nat))), (64, 128)]) ∧
    (∀ oL oH : Fin 4,
      mask_profile (check_intersection (st_ct (oL : Nat) 8 16 32 (oH : Nat) 9 64 128) 0 2) =
        [((oL : Nat), 8), (16, 32), (0, 8 ^^^ ((oH : Nat) ^^^ (oL : Nat))),
         (0, 8 ^^^ ((oH : Nat) ^^^ (oL : Nat))), ((oL : Nat), 8),
         ((oH : Nat) ^^^ (oL : Nat), 8), ((oH : Nat) ^^^ (oL : Nat), 8), (16, 32)]) := by
  refine ⟨fun oL bL oLr bLr oH bH oHr bHr => rfl, ?_, ?_, ?_, ?_⟩
  · decide
  · decide
  · decide
  · decide

/-- C6: the queue insertion invariant.  Both q_add_orig (original events,
first conjunct) and divide_segment (the two events allocated by a split,
second conjunct) establish pt_cmp(e.p, e.other.p) < 0 iff e.left for the
events they insert into the queue, at insertion time.  The hypotheses are
the call preconditions that hold in the code: for q_add_orig the two
resolved endpoints are distinct point objects with distinct coordinates
(the registry never holds two points of equal coordinates); for
divide_segment, ei is an event of the pool whose partner is its right
event, and the split point p lies strictly after the left endpoint and
has different coordinates from the right endpoint whenever it is a
different point object. -/
theorem c6_queue_left_invariant :
    (∀ (c : Ctxt) (v1 v2 : Vec2) (pid : Nat),
      (pt_new c v1).2 ≠ (pt_new (pt_new c v1).1 v2).2 →
      ptGet (pt_new (pt_new c v1).1 v2).1 (pt_new c v1).2 ≠
        ptGet (pt_new (pt_new c v1).1 v2).1 (pt_new (pt_new c v1).1 v2).2 →
      q_inv (q_add_orig c v1 v2 pid) c.evs.length ∧
      q_inv (q_add_orig c v1 v2 pid) (c.evs.length + 1)) ∧
    (∀ (c : Ctxt) (ei p : Nat),
      ei < c.evs.length →
      (evGet c ei).other < c.evs.length →
      ei ≠ (evGet c ei).other →
      (evGet c (evGet c ei).other).left = false →
      pt_cmp c (evGet c ei).p p < 0 →
      (p ≠ (evGet c (evGet c ei).other).p →
        ptGet c p ≠ ptGet c (evGet c (evGet c ei).other).p) →
      q_inv (divide_segment c ei p) c.evs.length ∧
      q_inv (divide_segment c ei p) (c.evs.length + 1)) :=
  ⟨q_add_orig_left_inv, divide_segment_left_inv⟩

theorem c6_queue_left_invariant_witness :
    q_inv (divide_segment c6w 0 2) c6w.evs.length ∧
    q_inv (divide_segment c6w 0 2) (c6w.evs.length + 1) :=
  c6_queue_left_invariant.2 c6w 0 2 (by decide) (by decide) (by decide) (by decide)
    (by decide) (by decide)

/-- C7: with an empty input, the driver returns through the trivial
shortcut: INTERSECT leaves the (empty) result object untouched, SUBTRACT
returns the first input unchanged, UNION and XOR return whichever input
is non-empty (the second input when the first is empty, so both empty
gives empty). -/
theorem c7_empty_shortcut (a b : Poly) (op : BoolOp)
    (h : a.path = [] ∨ b.path = []) :
    (cp_csg2_op_poly poly_empty a b op).1 =
      (match op with
       | BoolOp.cut => poly_empty
       | BoolOp.sub => a
       | BoolOp.add => if a.path = [] then b else a
       | BoolOp.xor => if a.path = [] then b else a) := by
  have h0 : a.path.length = 0 ∨ b.path.length = 0 := by
    rcases h with h | h <;> simp [h]
  rw [cp_csg2_op_poly.eq_def, if_pos h0]
  cases op
  case add =>
    by_cases ha : a.path = []
    · simp [ha]
    · have ha0 : ¬ a.path.length = 0 := by simpa [List.length_eq_zero] using ha
      simp [ha, ha0]
  case cut => rfl
  case sub => rfl
  case xor =>
    by_cases ha : a.path = []
    · simp [ha]
    · have ha0 : ¬ a.path.length = 0 := by simpa [List.length_eq_zero] using ha
      simp [ha, ha0]

/-- Witness for C7: subtracting the empty polygon returns the first input
unchanged. -/
theorem c7_empty_shortcut_witness :
    (cp_csg2_op_poly poly_empty sqOuter poly_empty BoolOp.sub).1 = sqOuter :=
  c7_empty_shortcut sqOuter poly_empty BoolOp.sub (Or.inr rfl)

/-- C8: for the degenerate input path A = [(0,0),(1,0),(0,0)] combined
with itself, every operation produces the empty polygon: the edge whose
endpoints collapse to one Point identity is dropped at the registry, and
the remaining coincident copies cancel their owner masks in the overlap
resolution, so no edge is emitted.  The second part states the registry
collapse rule of q_add_orig in general: when the two endpoints resolve to
the same point identity, the queue and the event list are left untouched,
no events are created. -/
theorem c8_degenerate_empty :
    (∀ op : BoolOp, (cp_csg2_op_poly poly_empty polyDeg polyDeg op).1 = poly_empty) ∧
    (∀ (c : Ctxt) (v1 v2 : Vec2) (pid : Nat),
      (pt_new (pt_new c v1).1 v2).2 = (pt_new c v1).2 →
      (q_add_orig c v1 v2 pid).q = c.q ∧ (q_add_orig c v1 v2 pid).evs = c.evs) := by
  constructor
  · intro op
    cases op <;> decide
  · intro c v1 v2 pid h
    have hs : q_add_orig c v1 v2 pid = (pt_new (pt_new c v1).1 v2).1 := by
      unfold q_add_orig
      simp only [h, if_pos]
    rw [hs, pt_new_q, pt_new_q, pt_new_evs, pt_new_evs]
    exact ⟨rfl, rfl⟩

/-- Witness for C8 at the origin edge on the default context. -/
theorem c8_degenerate_empty_witness :
    (q_add_orig default (0, 0) (0, 0) 0).q = (default : Ctxt).q ∧
    (q_add_orig default (0, 0) (0, 0) 0).evs = (default : Ctxt).evs :=
  c8_degenerate_empty.2 default (0, 0) (0, 0) 0 (by decide)

/-- C9: the driver is not read-only on its inputs.  In the empty-input
and disjoint-bounding-box shortcut branches the result is produced by
swapping the result object with input a (SUBTRACT, and UNION/XOR with b
empty) or with input b (UNION/XOR with a empty), so that input afterwards
holds the former contents of the result object; INTERSECT leaves all
three objects unchanged; outside the shortcut branches both inputs are
returned unchanged. -/
theorem c9_frame_effect :
    (∀ (r a b : Poly), a.path = [] ∨ b.path = [] →
      cp_csg2_op_poly r a b BoolOp.sub = (a, r, b) ∧
      cp_csg2_op_poly r a b BoolOp.cut = (r, a, b)) ∧
    (∀ (r a b : Poly), a.path = [] →
      cp_csg2_op_poly r a b BoolOp.add = (b, a, r) ∧
      cp_csg2_op_poly r a b BoolOp.xor = (b, a, r)) ∧
    (∀ (r a b : Poly), a.path ≠ [] → b.path = [] →
      cp_csg2_op_poly r a b BoolOp.add = (a, r, b) ∧
      cp_csg2_op_poly r a b BoolOp.xor = (a, r, b)) ∧
    (∀ (r a b : Poly), a.path ≠ [] → b.path ≠ [] → bbox_disjoint a b = true →
      cp_csg2_op_poly r a b BoolOp.sub = (a, r, b) ∧
      cp_csg2_op_poly r a b BoolOp.cut = (r, a, b) ∧
      cp_csg2_op_poly r a b BoolOp.add = (poly_merge a b, r, b) ∧
      cp_csg2_op_poly r a b BoolOp.xor = (poly_merge a b, r, b)) ∧
    (∀ (r a b : Poly) (op : BoolOp), a.path ≠ [] → b.path ≠ [] →
      bbox_disjoint a b = false →
      (cp_csg2_op_poly r a b op).2.1 = a ∧ (cp_csg2_op_poly r a b op).2.2 = b) := by
  refine ⟨?_, ?_, ?_, ?_, ?_⟩
  · intro r a b h
    have h0 : a.path.length = 0 ∨ b.path.length = 0 := by
      rcases h with h | h <;> simp [h]
    constructor <;> rw [cp_csg2_op_poly.eq_def, if_pos h0]
  · intro r a b ha
    have h0 : a.path.length = 0 ∨ b.path.length = 0 := Or.inl (by simp [ha])
    have ha0 : a.path.length = 0 := by simp [ha]
    constructor <;> rw [cp_csg2_op_poly.eq_def, if_pos h0] <;> simp [ha0]
  · intro r a b ha hb
    have h0 : a.path.length = 0 ∨ b.path.length = 0 := Or.inr (by simp [hb])
    have ha0 : ¬ a.path.length = 0 := by simpa [List.length_eq_zero] using ha
    constructor <;> rw [cp_csg2_op_poly.eq_def, if_pos h0] <;> simp [ha0]
  · intro r a b ha hb hd
    have ha0 : ¬ a.path.length = 0 := by simpa [List.length_eq_zero] using ha
    have hb0 : ¬ b.path.length = 0 := by simpa [List.length_eq_zero] using hb
    have h0 : ¬ (a.path.length = 0 ∨ b.path.length = 0) := by
      rintro (h | h)
      exacts [ha0 h, hb0 h]
    refine ⟨?_, ?_, ?_, ?_⟩ <;> rw [cp_csg2_op_poly.eq_def, if_neg h0] <;> simp [hd]
  · intro r a b op ha hb hd
    have ha0 : ¬ a.path.length = 0 := by simpa [List.length_eq_zero] using ha
    have hb0 : ¬ b.path.length = 0 := by simpa [List.length_eq_zero] using hb
    have h0 : ¬ (a.path.length = 0 ∨ b.path.length = 0) := by
      rintro (h | h)
      exacts [ha0 h, hb0 h]
    rw [cp_csg2_op_poly.eq_def, if_neg h0]
    simp [hd]

/-- Witness for C9: subtracting from a polygon with the empty b input
swaps the result object into a. -/
theorem c9_frame_effect_witness :
    cp_csg2_op_poly poly_empty sqInner poly_empty BoolOp.sub =
      (sqInner, poly_empty, poly_empty) :=
  (c9_frame_effect.1 poly_empty sqInner poly_empty (Or.inr rfl)).1

end Csg2Bool
